import Mathlib

/-!
Verification development for the medi-findr price-aggregation API
(`src/app/api/prices/route.ts`).

The shallow embedding below translates the pure computational core of the
route handler into Lean definitions:

* JS numbers that carry prices/quantities are modelled as rationals (`ℚ`);
  upstream JSON numeric fields are modelled as `Option ℚ`, `none` standing
  for an absent / null / non-numeric value (JSON cannot carry NaN or
  Infinity, and `toNumberSafe` collapses every non-finite coercion to its
  default).
* The process-wide `Map` objects (cache buckets, the rate-limit map, the
  dedupe `picked` map) are modelled as association lists with the same
  insertion-order semantics as a JS `Map` (`set` on an existing key updates
  the value in place, otherwise appends).
* Network effects are passed in as explicit oracle arguments
  (`Option`/`Except` values standing for the settled fetch result).
-/

namespace MediFindr

/-- JS truthiness of an optional string (`undefined`, `null` and `""` are
falsy, every other string is truthy). -/
def strTruthy : Option String → Bool
  | none => false
  | some s => s != ""

/-- Embeds the `x || undefined` idiom applied to optional string fields:
an empty string is coerced to an absent value. -/
def orUndef (o : Option String) : Option String :=
  if strTruthy o then o else none

/-- Embeds `String.prototype.trim`: strip leading and trailing whitespace.
(Structural, over the character list, so that concrete witnesses
evaluate.) -/
def strTrim (s : String) : String :=
  ⟨((s.data.dropWhile Char.isWhitespace).reverse.dropWhile
      Char.isWhitespace).reverse⟩

/-- Embeds `String.prototype.toLowerCase` over the character list. -/
def lowerStr (s : String) : String := ⟨s.data.map Char.toLower⟩

/-- Character-list helper: the second list occurs at the head of the
first. -/
def leadsWith : List Char → List Char → Bool
  | _, [] => true
  | [], _ :: _ => false
  | a :: as, b :: bs => a == b && leadsWith as bs

/-- Character-list helper: the second list occurs somewhere in the first. -/
def subOccurs : List Char → List Char → Bool
  | [], pat => pat.isEmpty
  | c :: rest, pat => leadsWith (c :: rest) pat || subOccurs rest pat

/-- Embeds `String.prototype.includes`. -/
def jsIncludes (s sub : String) : Bool := subOccurs s.data sub.data

/-- Embeds `toNumberSafe` (route.ts:70): a non-finite / non-numeric value is
replaced by the default (0 unless stated otherwise). -/
def toNumberSafe (n : Option ℚ) (d : ℚ) : ℚ := n.getD d

/-- Embeds `Number(x.toFixed(4))`: round to four decimal places. -/
def round4 (q : ℚ) : ℚ := (round (q * 10000) : ℤ) / 10000

/-- A rational is representable with four decimal places when it is an
integer multiple of 1/10000. -/
def isRounded4 (q : ℚ) : Prop := ∃ n : ℤ, q = (n : ℚ) / 10000

/-- Embeds `isFiveDigitZip` (route.ts:69): `!!v && /^\d{5}$/.test(v)`. -/
def isFiveDigitZip (v : String) : Bool :=
  v != "" && v.length == 5 && v.toList.all Char.isDigit

/-- Embeds the quantity clamp of the handler (route.ts:374):
`Math.min(Math.max(Number(qty || 30), 1), 5000)`; `none` stands for an
absent or empty parameter. -/
def clampQty (raw : Option ℚ) : ℚ := min (max (raw.getD 30) 1) 5000

/-- Embeds the row-limit clamp of the handler (route.ts:375):
`Math.min(Math.max(Number(limit || 25), 1), 50)`. -/
def clampLimit (raw : Option ℚ) : ℚ := min (max (raw.getD 25) 1) 50

/-- Number of rows kept by `rows.slice(0, limit)` (route.ts:572):
`Array.prototype.slice` truncates a fractional end index toward zero
(for the clamped range the index is at least 1, so floor). -/
def limitCount (raw : Option ℚ) : ℕ := (clampLimit raw).floor.toNat

/-- Embeds the `PriceRow` record shape (route.ts:40-61).  Optional string
fields are `Option String`; prices and quantities are rationals. -/
structure PriceRow where
  drug : String := ""
  form : Option String := none
  strength : Option String := none
  qty : ℚ := 0
  totalPrice : ℚ := 0
  unitPrice : ℚ := 0
  pricingUnit : Option String := none
  packageSize : Option String := none
  pharmacy : Option String := none
  ndc : Option String := none
  zip : Option String := none
  chain : Option String := none
  address : Option String := none
  city : Option String := none
  state : Option String := none
  source : String := ""
  dataset : String := ""
  effectiveDate : Option String := none
  lastUpdated : Option String := none
  notes : Option String := none
deriving DecidableEq

/-- A fixed default row, used only as the out-of-range value of `List.getD`. -/
def emptyRow : PriceRow := {}

/-! ## Rate limiter (route.ts:76-87) -/

/-- One record of the rate-limit map: `{ count, resetAt }`. -/
structure RateRecord where
  count : ℕ
  resetAt : ℕ
deriving DecidableEq

/-- The value returned by `rateLimit`: `{ allowed, remaining, resetAt }`.
`remaining` is an integer because the source computes `max - 1` on a JS
number without a lower bound. -/
structure RLResult where
  allowed : Bool
  remaining : ℤ
  resetAt : ℕ
deriving DecidableEq

/-- Embeds `rateLimit` (route.ts:76-87).  The argument `rec` is the entry
`g.__medi_rl.get(key)` for the key being touched; the second component of
the result is the entry stored for that key after the call (in the denied
branch the source leaves the map untouched, which coincides with storing
the unchanged record). -/
def rateLimit (rec : Option RateRecord) (now maxReq windowMs : ℕ) :
    RLResult × RateRecord :=
  match rec with
  | none =>
      (⟨true, (maxReq : ℤ) - 1, now + windowMs⟩, ⟨1, now + windowMs⟩)
  | some r =>
      if now ≥ r.resetAt then
        (⟨true, (maxReq : ℤ) - 1, now + windowMs⟩, ⟨1, now + windowMs⟩)
      else if r.count ≥ maxReq then
        (⟨false, 0, r.resetAt⟩, r)
      else
        (⟨true, (maxReq : ℤ) - ((r.count : ℤ) + 1), r.resetAt⟩,
         ⟨r.count + 1, r.resetAt⟩)

/-- Runs `rateLimit` for one key over a list of call times, threading the
stored record, and collects the per-call results. -/
def rlRun (rec : Option RateRecord) (maxReq windowMs : ℕ) :
    List ℕ → List RLResult × Option RateRecord
  | [] => ([], rec)
  | t :: ts =>
      let p := rateLimit rec t maxReq windowMs
      let q := rlRun (some p.2) maxReq windowMs ts
      (p.1 :: q.1, q.2)

/-! ## Cache (route.ts:26-35, 94-105)

A cache bucket is a JS `Map` from URL to `{ expires, data }`, modelled as an
association list in insertion order: `Map.prototype.set` updates an existing
key in place and otherwise appends. -/

/-- Association-list lookup, embedding `Map.prototype.get`. -/
def alookup {α : Type} : List (String × α) → String → Option α
  | [], _ => none
  | (k, v) :: rest, key => if k = key then some v else alookup rest key

/-- Association-list update, embedding `Map.prototype.set`: replace the
value of an existing key in place, otherwise append at the end. -/
def aset {α : Type} : List (String × α) → String → α → List (String × α)
  | [], key, v => [(key, v)]
  | (k, w) :: rest, key, v =>
      if k = key then (key, v) :: rest else (k, w) :: aset rest key v

/-- A cache entry `{ expires, data }` (route.ts:26). -/
structure CacheEntry (α : Type) where
  expires : ℕ
  data : α
deriving DecidableEq

/-- The fetch-and-store phase of `fetchJSONCached` (route.ts:100-104).
`upstream` is the settled upstream response: `none` when `!res.ok` (the
source then returns null and writes nothing), otherwise the parsed JSON
body.  With a positive TTL a successful body is stored under the URL with
expiry `now + ttlMs`. -/
def fetchFresh {α : Type} (cache : List (String × CacheEntry α)) (now : ℕ)
    (url : String) (ttlMs : ℕ) (upstream : Option α) :
    Option α × List (String × CacheEntry α) × Bool :=
  match upstream with
  | none => (none, cache, true)
  | some d =>
      if ttlMs > 0 then (some d, aset cache url ⟨now + ttlMs, d⟩, true)
      else (some d, cache, true)

/-- Embeds `fetchJSONCached` (route.ts:94-105) for one bucket.  The boolean
result records whether an upstream call was attempted.  With a positive TTL
a fresh entry (`expires > now`) is returned as-is without touching the
network; a missing or stale entry falls through to `fetchFresh`. -/
def fetchJSONCached {α : Type} (cache : List (String × CacheEntry α)) (now : ℕ)
    (url : String) (ttlMs : ℕ) (upstream : Option α) :
    Option α × List (String × CacheEntry α) × Bool :=
  if ttlMs > 0 then
    match alookup cache url with
    | some hit =>
        if hit.expires > now then (some hit.data, cache, false)
        else fetchFresh cache now url ttlMs upstream
    | none => fetchFresh cache now url ttlMs upstream
  else fetchFresh cache now url ttlMs upstream

/-! ## Sort + limit stage (route.ts:570-572)

`rows.sort((a, b) => a.totalPrice - b.totalPrice)` — ECMAScript requires
`Array.prototype.sort` to be stable, so with this comparator the result is
the unique stable ascending reordering by `totalPrice`.  It is embedded as
the insertion sort that inserts each row, in input order, after every
already-placed row whose `totalPrice` is less than or equal to its own
(all stable sorts under a total preorder produce the same output). -/

/-- Comparator of the sort stage as a relation: `a` may precede `b`. -/
def rowLe (a b : PriceRow) : Prop := a.totalPrice ≤ b.totalPrice

/-- Inserts `r` after every element with `totalPrice ≤ r.totalPrice`. -/
def insertRow (r : PriceRow) : List PriceRow → List PriceRow
  | [] => [r]
  | x :: xs =>
      if x.totalPrice ≤ r.totalPrice then x :: insertRow r xs else r :: x :: xs

/-- The stable ascending sort by `totalPrice` (route.ts:571). -/
def sortRows (rows : List PriceRow) : List PriceRow :=
  rows.foldl (fun acc r => insertRow r acc) []

/-! ## Dedupe stage (route.ts:553-566)

`dedupe=chain` groups rows by `r.chain || r.pharmacy || "unknown"`
(`dedupe=pharmacy` by `r.pharmacy || "unknown"`), keeping per key the row
with the smallest `totalPrice`; the comparison `r.totalPrice <
prev.totalPrice` is strict, so on ties the earlier row is kept.  The
`picked` map is a JS `Map` in key-first-occurrence order. -/

/-- The group key of `dedupe=chain`: `r.chain || r.pharmacy || "unknown"`
with JS falsiness (an empty string counts as absent). -/
def chainKey (r : PriceRow) : String :=
  if strTruthy r.chain then r.chain.getD ""
  else if strTruthy r.pharmacy then r.pharmacy.getD ""
  else "unknown"

/-- The group key of `dedupe=pharmacy`: `r.pharmacy || "unknown"`. -/
def pharmacyKey (r : PriceRow) : String :=
  if strTruthy r.pharmacy then r.pharmacy.getD "" else "unknown"

/-- One comparison of the dedupe loop: the later row `r` replaces the kept
row `b` only when strictly cheaper (route.ts:562). -/
def pick (b r : PriceRow) : PriceRow :=
  if r.totalPrice < b.totalPrice then r else b

/-- `pick` lifted to an optional previously-kept row (`!prev` case). -/
def optPick : Option PriceRow → PriceRow → PriceRow
  | none, r => r
  | some b, r => pick b r

/-- The row kept for one group after scanning the whole group in input
order, starting from its first member. -/
def pickFold (b : PriceRow) (g : List PriceRow) : PriceRow := g.foldl pick b

/-- `pickFold` threaded through an optional accumulator. -/
def optFold : Option PriceRow → List PriceRow → Option PriceRow
  | o, [] => o
  | o, r :: rest => optFold (some (optPick o r)) rest

/-- One iteration of the dedupe loop (route.ts:559-563): look up the key of
`r` in `picked`; set `r` when absent or strictly cheaper. -/
def dedupeStep (key : PriceRow → String) (m : List (String × PriceRow))
    (r : PriceRow) : List (String × PriceRow) :=
  match alookup m (key r) with
  | none => aset m (key r) r
  | some prev => if r.totalPrice < prev.totalPrice then aset m (key r) r else m

/-- The dedupe stage: fold the rows through the `picked` map and return
`Array.from(picked.values())` (route.ts:558-564). -/
def dedupeRows (key : PriceRow → String) (rows : List PriceRow) :
    List PriceRow :=
  (rows.foldl (dedupeStep key) []).map Prod.snd

/-- Concrete row used to refute the literal chain-dedupe claim: a GoodRx-like
row whose pharmacy name derives to the chain string `"unknown"`. -/
def cexChainRow : PriceRow :=
  { drug := "atorvastatin", qty := 30, totalPrice := 5, unitPrice := 1,
    pharmacy := some "Unknown", chain := some "unknown",
    source := "https://api.goodrx.com/v2/price", dataset := "GoodRx" }

/-- Concrete row used to refute the literal chain-dedupe claim: a NADAC-like
row with neither chain nor pharmacy, hence dedupe key `"unknown"`. -/
def cexNadacRow : PriceRow :=
  { drug := "atorvastatin", qty := 30, totalPrice := 1, unitPrice := 1,
    source := "https://healthdata.gov/resource/3tha-57c6.json",
    dataset := "NADAC (HealthData.gov 2024)" }

/-- Concrete rows for the dedupe witnesses: two rows of chain `"cvs"`. -/
def wChainRow1 : PriceRow :=
  { drug := "atorvastatin", qty := 30, totalPrice := 5, unitPrice := 1,
    pharmacy := some "CVS Pharmacy 12", chain := some "cvs",
    dataset := "GoodRx" }

/-- Second witness row of chain `"cvs"`, strictly cheaper. -/
def wChainRow2 : PriceRow :=
  { drug := "atorvastatin", qty := 30, totalPrice := 2, unitPrice := 1,
    pharmacy := some "CVS Pharmacy 99", chain := some "cvs",
    dataset := "GoodRx" }

/-! ## Chain derivation (route.ts:106-116)

`deriveChain` lowercases the pharmacy name and tests `/\bX\b/` for six known
chains.  Since every pattern is a single word of word-characters, a
word-boundary regex match is equivalent to membership of the pattern among
the maximal word-character runs of the subject. -/

/-- A regex word-character (`\w`): alphanumeric or underscore. -/
def isWordChar (c : Char) : Bool := c.isAlphanum || c == '_'

/-- The maximal word-character runs of a character list (the pieces between
non-word characters, as `String.prototype.split` on a non-word-char
separator would produce, empty pieces included). -/
def wordsAux : List Char → List Char → List (List Char)
  | [], acc => [acc.reverse]
  | c :: rest, acc =>
      if isWordChar c then wordsAux rest (c :: acc)
      else acc.reverse :: wordsAux rest []

/-- Word-delimited occurrence of the all-word-character pattern `w` in `n`,
equivalent to `/\bw\b/.test(n)`. -/
def hasWord (n w : String) : Bool :=
  (wordsAux n.data []).contains w.data

/-- Embeds `deriveChain` (route.ts:106-116): falsy names give `undefined`,
known chain words are canonicalized, anything else is the lowercased,
trimmed name. -/
def deriveChain (name : Option String) : Option String :=
  match name with
  | none => none
  | some s =>
      if s == "" then none
      else
        let n := lowerStr s
        if hasWord n "walmart" then some "walmart"
        else if hasWord n "cvs" then some "cvs"
        else if hasWord n "walgreens" then some "walgreens"
        else if hasWord n "costco" then some "costco"
        else if hasWord n "safeway" then some "safeway"
        else if hasWord n "kroger" then some "kroger"
        else some (strTrim n)

/-! ## NADAC provider (route.ts:145-175) -/

/-- One raw record of the NADAC dataset response, with the fields the
mapper reads (route.ts:160-171); `nadac_per_unit` is the `Number`-coerced
value, `none` for an absent or non-numeric field. -/
structure NadacRecord where
  ndc : Option String := none
  generic_name : Option String := none
  ndc_description : Option String := none
  effective_date : Option String := none
  nadac_per_unit : Option ℚ := none
  pricing_unit : Option String := none
  package_size : Option String := none
deriving DecidableEq

/-- The provider-side page-size clamp of `fetchNadac` (route.ts:155):
`Math.min(Math.max(limit, 1), 50)`. -/
def nadacLimit (limit : ℚ) : ℚ := min (max limit 1) 50

/-- Embeds the row mapper of `fetchNadac` (route.ts:160-172): the unit
price is `toNumberSafe(r.nadac_per_unit)` taken verbatim — not rounded —
while the total is `Number((unit * qty).toFixed(4))`. -/
def nadacRow (url : String) (qty : ℚ) (r : NadacRecord) : PriceRow :=
  let unit := toNumberSafe r.nadac_per_unit 0
  { drug := lowerStr (r.generic_name.getD "")
    qty := qty
    unitPrice := unit
    totalPrice := round4 (unit * qty)
    pricingUnit := orUndef r.pricing_unit
    packageSize := orUndef r.package_size
    ndc := orUndef r.ndc
    zip := none
    source := url
    dataset := "NADAC (HealthData.gov 2024)"
    effectiveDate := orUndef r.effective_date
    notes := some "NADAC is an acquisition cost benchmark (not retail price)." }

/-- Embeds the data-to-rows step of `fetchNadac` (route.ts:159-173):
`Array.isArray(data) ? data.map(...) : []`; `none` stands for a null or
non-array body. -/
def fetchNadacRows (url : String) (qty : ℚ) (data : Option (List NadacRecord)) :
    List PriceRow :=
  match data with
  | some recs => recs.map (nadacRow url qty)
  | none => []

/-- Models the baseline computation of route.ts:489-498 with the
`nadacRows` binding in scope.  (In the source, `nadacRows` is declared by
destructuring inside the `try` block at route.ts:478 and referenced outside
that block at route.ts:490 — a scope error; this definition renders the
computation those lines express:
`Math.min(...nadacRows.map(r => Number(r.unitPrice)).filter(Number.isFinite))`,
exposed as a number when finite, null otherwise — so the minimum unit price
when a row with a finite unit price exists, null for the empty set; in the
rational model every unit price is finite.) -/
def nadacUnitMin (nadacRows : List PriceRow) : Option ℚ :=
  match nadacRows with
  | [] => none
  | r :: rest => some ((rest.map PriceRow.unitPrice).foldl min r.unitPrice)

/-! ## GoodRx provider (route.ts:180-230, 455-472) -/

/-- The GoodRx query input (route.ts:63). -/
structure GoodRxInput where
  drug : String
  qty : ℚ
  zip : Option String
  limit : ℚ
deriving DecidableEq

/-- One raw item of the GoodRx response, with the fields the mapper reads
(route.ts:210-226). -/
structure GoodRxItem where
  price_per_unit : Option ℚ := none
  unit_price : Option ℚ := none
  price : Option ℚ := none
  total_price : Option ℚ := none
  pharmacy_name : Option String := none
  pharmacy : Option String := none
  generic_name : Option String := none
  name : Option String := none
  form : Option String := none
  strength : Option String := none
  pricing_unit : Option String := none
  package_size : Option String := none
  ndc : Option String := none
  effective_date : Option String := none
  updated_at : Option String := none
deriving DecidableEq

/-- The raw per-unit price of a GoodRx item (route.ts:211):
`toNumberSafe(p?.price_per_unit ?? p?.unit_price ?? p?.price)`. -/
def goodRxUnitRaw (p : GoodRxItem) : ℚ :=
  toNumberSafe ((p.price_per_unit.orElse fun _ => p.unit_price).orElse
    fun _ => p.price) 0

/-- The raw total price of a GoodRx item (route.ts:212):
`toNumberSafe(p?.total_price ?? unitPrice * input.qty)`. -/
def goodRxTotalRaw (input : GoodRxInput) (p : GoodRxItem) : ℚ :=
  toNumberSafe (p.total_price.orElse fun _ => some (goodRxUnitRaw p * input.qty)) 0

/-- The GoodRx endpoint (route.ts:180); the query string of the concrete
request URL plays no role in any claim and is kept as the base constant. -/
def goodRxBase : String := "https://api.goodrx.com/v2/price"

/-- Embeds the row mapper of `fetchGoodRxPrices` (route.ts:210-227): unit
and total prices are rounded to four decimals, `qty` is the request
quantity. -/
def goodRxRow (input : GoodRxInput) (url : String) (p : GoodRxItem) : PriceRow :=
  let pharmacyName := (orUndef p.pharmacy_name).orElse fun _ => orUndef p.pharmacy
  { drug := lowerStr (((orUndef p.generic_name).orElse fun _ =>
        orUndef p.name).getD input.drug)
    form := orUndef p.form
    strength := orUndef p.strength
    qty := input.qty
    unitPrice := round4 (goodRxUnitRaw p)
    totalPrice := round4 (goodRxTotalRaw input p)
    pharmacy := pharmacyName
    chain := deriveChain pharmacyName
    pricingUnit := orUndef p.pricing_unit
    packageSize := orUndef p.package_size
    ndc := orUndef p.ndc
    zip := orUndef input.zip
    source := url
    dataset := "GoodRx"
    effectiveDate := (orUndef p.effective_date).orElse fun _ => orUndef p.updated_at
    notes := some "Consumer-facing discount price (volatile; do not store long-term)." }

/-- Embeds `fetchGoodRxPrices` (route.ts:182-230).  With a falsy API key
(`undefined` or empty) the function returns `{ rows: [], url }` immediately
and performs no network activity, so the upstream oracle is irrelevant;
otherwise `upstream` is the settled cached-or-direct fetch: `.error` models
a thrown network failure (propagating to the caller), `.ok none` a
non-success status or non-array body (mapped to no rows), `.ok (some items)`
the extracted item array. -/
def fetchGoodRxPrices (apiKey : Option String) (input : GoodRxInput)
    (upstream : Except Unit (Option (List GoodRxItem))) :
    Except Unit (List PriceRow × String) :=
  if !strTruthy apiKey then .ok ([], goodRxBase)
  else
    match upstream with
    | .error e => .error e
    | .ok none => .ok ([], goodRxBase)
    | .ok (some items) => .ok (items.map (goodRxRow input goodRxBase), goodRxBase)

/-- The caveat recorded when the GoodRx throttle denies a call
(route.ts:470). -/
def goodrxThrottleCaveat : String :=
  "GoodRx calls throttled for this client to protect upstream limits."

/-- The caveat recorded alongside appended GoodRx rows (route.ts:466). -/
def goodrxDataCaveat : String :=
  "GoodRx prices change frequently; do not store long-term."

/-- The transparency-and-rows state threaded through the aggregation stage
of the handler. -/
structure AggState where
  rows : List PriceRow := []
  caveats : List String := []
  attempted : List String := []
  datasets : List String := []
  goodrxCalls : ℕ := 0
  rlGoodRx : Option RateRecord := none
deriving DecidableEq

/-- Embeds the GoodRx section of the handler (route.ts:455-472): consult
the provider-specific throttle first; when denied, record a caveat and skip
the provider call; when allowed, record the attempt, call the provider
(counted by `goodrxCalls`), append rows plus dataset descriptor and caveat
on non-empty success, and swallow a thrown error. -/
def goodrxSection (st : AggState) (includeGoodRx : Bool) (apiKey : Option String)
    (input : GoodRxInput) (upstream : Except Unit (Option (List GoodRxItem)))
    (now goodrxMax windowMs : ℕ) : AggState :=
  if includeGoodRx then
    let p := rateLimit st.rlGoodRx now goodrxMax windowMs
    if p.1.allowed then
      let st1 := { st with rlGoodRx := some p.2,
                           attempted := st.attempted ++ ["GoodRx"],
                           goodrxCalls := st.goodrxCalls + 1 }
      match fetchGoodRxPrices apiKey input upstream with
      | .error _ => st1
      | .ok (grxRows, _) =>
          if grxRows.isEmpty then st1
          else { st1 with rows := st1.rows ++ grxRows,
                          datasets := st1.datasets ++ ["GoodRx"],
                          caveats := st1.caveats ++ [goodrxDataCaveat] }
    else
      { st with rlGoodRx := some p.2,
                caveats := st.caveats ++ [goodrxThrottleCaveat] }
  else st

/-! ## Florida provider (route.ts:287-326) -/

/-- One parsed row of the Florida workbook after the column-alias `pick`
lookups (route.ts:299-305).  `quantity` carries `Number(pick(..., "30"))`
(an absent column becomes 30 through the fallback; `none` = a non-numeric
cell) and `price` carries `Number(pick([Price, ...]) || 0)` (an absent or
empty cell becomes 0; `none` = non-numeric, which the guarded arithmetic
below also collapses to 0). -/
structure FloridaRecord where
  pharmacyName : Option String := none
  drugName : Option String := none
  quantity : Option ℚ := none
  price : Option ℚ := none
  city : Option String := none
  address : Option String := none
  ndc : Option String := none
deriving DecidableEq

/-- The raw per-unit price of a Florida row (route.ts:306):
`((Number(priceStr || 0)) / (quantity || 1)) || 0`. -/
def floridaUnitRaw (r : FloridaRecord) : ℚ :=
  let effQ : ℚ := match r.quantity with
    | some q => if q = 0 then 1 else q
    | none => 1
  match r.price with
  | some pr => pr / effQ
  | none => 0

/-- Embeds the row mapper of `parseFloridaWorkbook` (route.ts:298-323). -/
def floridaRow (sourceUrl requestedDrug : String) (qty : ℚ) (r : FloridaRecord) :
    PriceRow :=
  { drug := lowerStr ((orUndef r.drugName).getD requestedDrug)
    qty := qty
    unitPrice := round4 (floridaUnitRaw r)
    totalPrice := round4 (floridaUnitRaw r * qty)
    pharmacy := r.pharmacyName
    chain := deriveChain r.pharmacyName
    ndc := r.ndc
    pricingUnit := some "per unit"
    zip := none
    address := r.address
    city := r.city
    state := some "FL"
    source := sourceUrl
    dataset := "Florida MyFloridaRX"
    notes := some "Retail usual and customary price from paid-claims-derived data; updated monthly." }

/-- Embeds `parseFloridaWorkbook` on the sheet rows (route.ts:298):
`json.slice(0, limit).map(...)`. -/
def parseFloridaRows (sourceUrl requestedDrug : String) (qty : ℚ) (limit : ℕ)
    (json : List FloridaRecord) : List PriceRow :=
  (json.take limit).map (floridaRow sourceUrl requestedDrug qty)

/-! ## Mock provider (route.ts:121-140, 519-535) -/

/-- A mock fixture entry: a base row plus its ZIP coverage list. -/
structure MockEntry where
  row : PriceRow
  zipCoverage : List String
deriving DecidableEq

/-- The in-memory mock fixture (route.ts:121-140). -/
def MOCK : List MockEntry :=
  [⟨{ drug := "atorvastatin", form := some "tablet", strength := some "20 mg",
      qty := 30, totalPrice := 9.99, unitPrice := 9.99 / 30,
      pharmacy := some "Walmart (Mock)",
      source := "mock://walmart/atorvastatin-20mg-30", dataset := "Mock",
      lastUpdated := some "2025-09-01T00:00:00Z" },
    ["85001", "85002", "85281", "99999"]⟩,
   ⟨{ drug := "atorvastatin", form := some "tablet", strength := some "10 mg",
      qty := 30, totalPrice := 11.49, unitPrice := 11.49 / 30,
      pharmacy := some "CVS (Mock)",
      source := "mock://cvs/atorvastatin-10mg-30", dataset := "Mock",
      lastUpdated := some "2025-08-27T00:00:00Z" },
    ["85001", "85018", "85281"]⟩,
   ⟨{ drug := "metformin", form := some "tablet", strength := some "500 mg",
      qty := 60, totalPrice := 6.5, unitPrice := 6.5 / 60,
      pharmacy := some "Costco (Mock)",
      source := "mock://costco/metformin-500mg-60", dataset := "Mock",
      lastUpdated := some "2025-09-05T00:00:00Z" },
    ["85001", "85281"]⟩]

/-- Embeds the mock section of the handler (route.ts:522-532): filter the
fixture by drug substring and optional ZIP coverage, then rescale every
fixture row to the requested quantity at the fixture unit price. -/
def mockSection (normalizedDrug zip : String) (qty : ℚ) : List PriceRow :=
  ((MOCK.filter fun m => jsIncludes (lowerStr m.row.drug) normalizedDrug).filter
      fun m => if zip != "" then m.zipCoverage.contains zip else true).map
    fun m =>
      { m.row with
          qty := qty
          unitPrice := round4 (m.row.totalPrice / m.row.qty)
          totalPrice := round4 (m.row.totalPrice / m.row.qty * qty)
          zip := if zip != "" then some zip else none
          chain := deriveChain m.row.pharmacy }

/-! ## RxNorm resolver (route.ts:235-272) and normalization (route.ts:428-436) -/

/-- The resolver result shape (route.ts:64). -/
structure RxNormResolved where
  rxcui : Option String := none
  name : Option String := none
  ndcs : List String := []
  resolutionSourceUrl : Option String := none
  ndcsSourceUrl : Option String := none
deriving DecidableEq

/-- URL of the RxNav rxcui search (route.ts:235-236); `encodeURIComponent`
is kept as the identity on the names used here. -/
def rxnavFind (name : String) (search : ℕ) : String :=
  "https://rxnav.nlm.nih.gov/REST/rxcui.json?name=" ++ name ++
    "&search=" ++ toString search

/-- URL of the RxNav NDC listing (route.ts:237-238). -/
def rxnavNdcs (rxcui : String) : String :=
  "https://rxnav.nlm.nih.gov/REST/rxcui/" ++ rxcui ++ "/ndcs.json"

/-- Embeds `resolveRxNorm` (route.ts:240-272).  `find1` and `find9` are the
id lists of the normalized (`search=1`) and approximate (`search=9`)
lookups (`none` for a missing or non-array id group), `ndcLookup` the NDC
list fetched for the resolved rxcui and `nameLookup` its display name
(`?? null`). -/
def resolveRxNorm (drugFreeText : String) (find1 find9 : Option (List String))
    (ndcLookup : Option (List String)) (nameLookup : Option String) :
    RxNormResolved :=
  let useFirst : Bool := match find1 with
    | some (_ :: _) => true
    | _ => false
  let ids := if useFirst then find1 else find9
  let url := if useFirst then rxnavFind drugFreeText 1 else rxnavFind drugFreeText 9
  match ids with
  | some (i :: _) =>
      { rxcui := some i
        name := nameLookup
        ndcs := ndcLookup.getD []
        resolutionSourceUrl := some url
        ndcsSourceUrl := some (rxnavNdcs i) }
  | _ => { rxcui := none, name := none, ndcs := []
           resolutionSourceUrl := none, ndcsSourceUrl := none }

/-- Embeds the normalization step of the handler (route.ts:428-436):
`normalizedDrug` starts as `rawDrug.toLowerCase()`; only when resolution is
enabled, does not throw, and yields a truthy canonical name is it replaced
by that name lowercased.  A thrown resolution error (`.error`) is swallowed
by the empty catch. -/
def normalizeDrug (includeRxNorm : Bool) (rawDrug : String)
    (resolution : Except Unit RxNormResolved) : String :=
  let base := lowerStr rawDrug
  if includeRxNorm then
    match resolution with
    | .error _ => base
    | .ok rx => if strTruthy rx.name then lowerStr (rx.name.getD "") else base
  else base

/-! ## Handler gate (route.ts:368-426) -/

/-- Outcome of the validation-and-rate-gate prefix of `GET`, decided before
any resolution or provider work. -/
inductive GateOutcome where
  | badDrug (message : String)
  | badZip (message : String)
  | limited (remaining : ℕ) (resetAt : ℕ)
  | proceed (rawDrug zip : String) (rl : RLResult)
deriving DecidableEq

/-- Embeds the handler prefix (route.ts:372-426): read and trim the two
validated inputs, reject a missing or empty drug (400), reject a non-empty
zip that is not exactly five digits (400), and only then consult the global
per-client rate limiter, answering 429 with remaining 0 and the stored
reset time on denial.  The second component is the rate-limit entry of the
client key after the call — returned untouched on the two validation
rejections, which happen before `rateLimit` runs; resolution and provider
work happen strictly after a `proceed` outcome. -/
def handlerGate (drugParam zipParam : Option String)
    (rl : Option RateRecord) (now maxReq windowMs : ℕ) :
    GateOutcome × Option RateRecord :=
  let rawDrug := strTrim (drugParam.getD "")
  let zip := strTrim (zipParam.getD "")
  if rawDrug == "" then
    (.badDrug "Missing required query param: drug (e.g., ?drug=atorvastatin)", rl)
  else if zip != "" && !isFiveDigitZip zip then
    (.badZip "Invalid zip. Use 5 digits, e.g., 85001", rl)
  else
    let p := rateLimit rl now maxReq windowMs
    if p.1.allowed then (.proceed rawDrug zip p.1, some p.2)
    else (.limited 0 p.1.resetAt, some p.2)

/-- Concrete NADAC record refuting the literal row invariant: a realistic
five-decimal benchmark unit price that is moreover negative. -/
def cexNadacRecord : NadacRecord :=
  { generic_name := some "Atorvastatin", nadac_per_unit := some (-0.12345) }

/-- Concrete rows for the tie-breaking witness: equal `totalPrice`, same
pharmacy, distinguished by NDC. -/
def wTieRow1 : PriceRow :=
  { drug := "metformin", qty := 60, totalPrice := 3, unitPrice := 1,
    pharmacy := some "Walgreens", chain := some "walgreens",
    ndc := some "00000-0001", dataset := "GoodRx" }

/-- Second tie-breaking witness row, same price, later in input order. -/
def wTieRow2 : PriceRow :=
  { drug := "metformin", qty := 60, totalPrice := 3, unitPrice := 1,
    pharmacy := some "Walgreens", chain := some "walgreens",
    ndc := some "00000-0002", dataset := "GoodRx" }

/-! ## Theorems -/

theorem rlRun_append (maxReq windowMs : ℕ) (l₁ l₂ : List ℕ) :
    ∀ rec, rlRun rec maxReq windowMs (l₁ ++ l₂) =
      ((rlRun rec maxReq windowMs l₁).1 ++
        (rlRun (rlRun rec maxReq windowMs l₁).2 maxReq windowMs l₂).1,
       (rlRun (rlRun rec maxReq windowMs l₁).2 maxReq windowMs l₂).2) := by
  induction l₁ with
  | nil => intro rec; simp [rlRun]
  | cons t ts ih =>
      intro rec
      simp only [List.cons_append, rlRun, List.append_eq, ih]

/-- Inside an open window, calls that stay under `maxReq` are all allowed,
keep the stored `resetAt`, and step the count by one each. -/
theorem rlRun_under_max (maxReq windowMs R : ℕ) :
    ∀ (ts : List ℕ) (c : ℕ), 1 ≤ c → c + ts.length ≤ maxReq →
      (∀ t ∈ ts, t < R) →
      (∀ r ∈ (rlRun (some ⟨c, R⟩) maxReq windowMs ts).1,
          r.allowed = true ∧ r.resetAt = R) ∧
      (rlRun (some ⟨c, R⟩) maxReq windowMs ts).2 = some ⟨c + ts.length, R⟩ ∧
      (rlRun (some ⟨c, R⟩) maxReq windowMs ts).1.length = ts.length := by
  intro ts
  induction ts with
  | nil => intro c _ _ _; simp [rlRun]
  | cons t ts ih =>
      intro c hc hle hin
      have ht : t < R := hin t (by simp)
      have hcm : c < maxReq := by simp at hle; omega
      have hstep : rateLimit (some ⟨c, R⟩) t maxReq windowMs =
          (⟨true, (maxReq : ℤ) - ((c : ℤ) + 1), R⟩, ⟨c + 1, R⟩) := by
        simp [rateLimit, Nat.not_le.mpr ht, Nat.not_le.mpr hcm]
      have hrec := ih (c + 1) (by omega) (by simp at hle ⊢; omega)
        (fun x hx => hin x (by simp [hx]))
      refine ⟨?_, ?_, ?_⟩
      · intro r hr
        simp only [rlRun, hstep] at hr
        rcases List.mem_cons.mp hr with h | h
        · subst h; exact ⟨rfl, rfl⟩
        · exact hrec.1 r h
      · simp only [rlRun, hstep]
        rw [hrec.2.1]
        simp [Nat.add_assoc, Nat.add_comm 1 ts.length]
      · simp only [rlRun, hstep, List.length_cons]
        rw [hrec.2.2]

theorem alookup_aset_self {α : Type} (m : List (String × α)) (k : String) (v : α) :
    alookup (aset m k v) k = some v := by
  induction m with
  | nil => simp [aset, alookup]
  | cons p rest ih =>
      by_cases h : p.1 = k
      · simp [aset, alookup, h]
      · simp [aset, alookup, h, ih]

theorem alookup_aset_other {α : Type} (m : List (String × α)) (k k' : String)
    (v : α) (hne : k' ≠ k) : alookup (aset m k v) k' = alookup m k' := by
  have hkk : ¬ k = k' := fun h => hne h.symm
  induction m with
  | nil => simp [aset, alookup, hkk]
  | cons p rest ih =>
      obtain ⟨a, b⟩ := p
      by_cases h : a = k
      · subst h
        simp [aset, alookup, hkk]
      · simp [aset, alookup, h, ih]

/-- C5: the provider cache is idempotent within TTL.  A fresh entry is
returned with no upstream call and the cache unchanged; a missing or stale
entry (`now ≥ expiresAt`, kept in place, not purged) causes an upstream
attempt, and a successful fetch with positive TTL overwrites the entry
while a failed fetch leaves the stale entry in place; a zero TTL disables
caching entirely (an upstream attempt on every call, no reads or writes). -/
theorem fetchJSONCached_spec {α : Type} (cache : List (String × CacheEntry α))
    (now : ℕ) (url : String) (ttlMs : ℕ) (upstream : Option α)
    (hpos : 0 < ttlMs) :
    (∀ hit, alookup cache url = some hit → now < hit.expires →
      fetchJSONCached cache now url ttlMs upstream = (some hit.data, cache, false)) ∧
    (∀ hit, alookup cache url = some hit → hit.expires ≤ now →
      (fetchJSONCached cache now url ttlMs upstream).2.2 = true ∧
      (upstream = none →
        fetchJSONCached cache now url ttlMs upstream = (none, cache, true)) ∧
      (∀ d, upstream = some d →
        fetchJSONCached cache now url ttlMs upstream =
          (some d, aset cache url ⟨now + ttlMs, d⟩, true) ∧
        alookup (aset cache url ⟨now + ttlMs, d⟩) url = some ⟨now + ttlMs, d⟩)) ∧
    (alookup cache url = none →
      (fetchJSONCached cache now url ttlMs upstream).2.2 = true ∧
      (∀ d, upstream = some d →
        alookup (fetchJSONCached cache now url ttlMs upstream).2.1 url =
          some ⟨now + ttlMs, d⟩)) ∧
    (∀ up : Option α, fetchJSONCached cache now url 0 up = (up, cache, true)) := by
  refine ⟨?_, ?_, ?_, ?_⟩
  · intro hit hhit hfresh
    simp [fetchJSONCached, hpos, hhit, hfresh]
  · intro hit hhit hstale
    have hnf : ¬ hit.expires > now := by omega
    refine ⟨?_, ?_, ?_⟩
    · simp only [fetchJSONCached, hpos, if_pos hpos, hhit, hnf, if_false]
      cases upstream with
      | none => simp [fetchFresh]
      | some d => simp [fetchFresh, hpos]
    · intro hup
      subst hup
      simp [fetchJSONCached, hpos, hhit, hnf, fetchFresh]
    · intro d hup
      subst hup
      constructor
      · simp [fetchJSONCached, hpos, hhit, hnf, fetchFresh]
      · exact alookup_aset_self cache url _
  · intro hmiss
    constructor
    · simp only [fetchJSONCached, if_pos hpos, hmiss]
      cases upstream with
      | none => simp [fetchFresh]
      | some d => simp [fetchFresh, hpos]
    · intro d hup
      subst hup
      simp only [fetchJSONCached, if_pos hpos, hmiss, fetchFresh, if_pos hpos]
      exact alookup_aset_self cache url _
  · intro up
    cases up with
    | none => simp [fetchJSONCached, fetchFresh]
    | some d => simp [fetchJSONCached, fetchFresh]

/-- Witness for `fetchJSONCached_spec` on a one-entry `ℕ`-valued cache: the
fresh hit is served from the cache with no upstream attempt. -/
theorem fetchJSONCached_spec_witness :
    fetchJSONCached [("u", (⟨10, 42⟩ : CacheEntry ℕ))] 5 "u" 7 (some 1) =
      (some 42, [("u", ⟨10, 42⟩)], false) :=
  (fetchJSONCached_spec [("u", (⟨10, 42⟩ : CacheEntry ℕ))] 5 "u" 7 (some 1)
    (by decide)).1 ⟨10, 42⟩ (by decide) (by decide)

theorem mem_insertRow {r y : PriceRow} :
    ∀ {l : List PriceRow}, y ∈ insertRow r l ↔ y = r ∨ y ∈ l := by
  intro l
  induction l with
  | nil => simp [insertRow]
  | cons x xs ih =>
      by_cases h : x.totalPrice ≤ r.totalPrice
      · simp only [insertRow, if_pos h, List.mem_cons, ih]
        tauto
      · simp only [insertRow, if_neg h, List.mem_cons]

theorem insertRow_pairwise (r : PriceRow) :
    ∀ {l : List PriceRow}, l.Pairwise rowLe → (insertRow r l).Pairwise rowLe := by
  intro l
  induction l with
  | nil => intro _; simp [insertRow, List.Pairwise]
  | cons x xs ih =>
      intro h
      rcases List.pairwise_cons.mp h with ⟨hx, hxs⟩
      by_cases hle : x.totalPrice ≤ r.totalPrice
      · rw [insertRow, if_pos hle]
        refine List.pairwise_cons.mpr ⟨?_, ih hxs⟩
        intro y hy
        rcases mem_insertRow.mp hy with h | h
        · subst h; exact hle
        · exact hx y h
      · rw [insertRow, if_neg hle]
        have hrx : r.totalPrice ≤ x.totalPrice := le_of_not_le hle
        refine List.pairwise_cons.mpr ⟨?_, h⟩
        intro y hy
        rcases List.mem_cons.mp hy with h | h
        · subst h; exact hrx
        · exact le_trans hrx (hx y h)

theorem filter_head_gt (q : ℚ) (x : PriceRow) (xs : List PriceRow)
    (hp : (x :: xs).Pairwise rowLe) (hq : q < x.totalPrice) :
    (x :: xs).filter (fun y => decide (y.totalPrice = q)) = [] := by
  rw [List.filter_eq_nil_iff]
  intro y hy
  have hyq : q < y.totalPrice := by
    rcases List.mem_cons.mp hy with h | h
    · subst h; exact hq
    · exact lt_of_lt_of_le hq ((List.pairwise_cons.mp hp).1 y h)
  simp only [decide_eq_true_eq]
  intro he
  rw [he] at hyq
  exact lt_irrefl q hyq

theorem filter_insertRow (q : ℚ) (r : PriceRow) :
    ∀ {l : List PriceRow}, l.Pairwise rowLe →
      (insertRow r l).filter (fun y => decide (y.totalPrice = q)) =
        l.filter (fun y => decide (y.totalPrice = q)) ++
          (if r.totalPrice = q then [r] else []) := by
  intro l
  induction l with
  | nil => intro _; by_cases h : r.totalPrice = q <;> simp [insertRow, h]
  | cons x xs ih =>
      intro h
      rcases List.pairwise_cons.mp h with ⟨_, hxs⟩
      by_cases hle : x.totalPrice ≤ r.totalPrice
      · rw [insertRow, if_pos hle]
        rw [List.filter_cons, List.filter_cons]
        by_cases hx : x.totalPrice = q
        · simp [hx, ih hxs]
        · simp [hx, ih hxs]
      · rw [insertRow, if_neg hle]
        have hrx : r.totalPrice < x.totalPrice := lt_of_not_le hle
        by_cases hr : r.totalPrice = q
        · have hnil : (x :: xs).filter (fun y => decide (y.totalPrice = q)) = [] :=
            filter_head_gt q x xs h (hr ▸ hrx)
          rw [List.filter_cons, hnil]
          simp [hr]
        · rw [List.filter_cons]
          simp [hr]

theorem foldl_insertRow_inv (q : ℚ) :
    ∀ (l acc : List PriceRow), acc.Pairwise rowLe →
      (l.foldl (fun a r => insertRow r a) acc).Pairwise rowLe ∧
      (l.foldl (fun a r => insertRow r a) acc).filter
          (fun y => decide (y.totalPrice = q)) =
        acc.filter (fun y => decide (y.totalPrice = q)) ++
          l.filter (fun y => decide (y.totalPrice = q)) := by
  intro l
  induction l with
  | nil =>
      intro acc h
      constructor
      · simpa using h
      · simp
  | cons r l' ih =>
      intro acc h
      have hacc' := insertRow_pairwise r h
      have hrec := ih (insertRow r acc) hacc'
      simp only [List.foldl_cons]
      refine ⟨hrec.1, ?_⟩
      rw [hrec.2, filter_insertRow q r h, List.filter_cons]
      by_cases hr : r.totalPrice = q <;> simp [hr]

/-- C2: for every successful response, the returned row list
`rows.sort(...).slice(0, limit)` is ascending in `totalPrice` over every
adjacent pair, ties keep their relative input order (for every price the
rows carrying it appear as a prefix-preserved subsequence of their input
occurrence order), and the list length is at most the clamped row limit. -/
theorem results_sorted_stable_limited (rows : List PriceRow) (rawLimit : Option ℚ) :
    List.Chain' rowLe ((sortRows rows).take (limitCount rawLimit)) ∧
    (∀ q : ℚ, ∃ t, rows.filter (fun y => decide (y.totalPrice = q)) =
      ((sortRows rows).take (limitCount rawLimit)).filter
        (fun y => decide (y.totalPrice = q)) ++ t) ∧
    ((sortRows rows).take (limitCount rawLimit)).length ≤ limitCount rawLimit := by
  have hsorted : (sortRows rows).Pairwise rowLe :=
    (foldl_insertRow_inv 0 rows [] (by simp)).1
  refine ⟨?_, ?_, ?_⟩
  · exact List.Pairwise.chain'
      (hsorted.sublist (List.take_sublist (limitCount rawLimit) (sortRows rows)))
  · intro q
    refine ⟨((sortRows rows).drop (limitCount rawLimit)).filter
      (fun y => decide (y.totalPrice = q)), ?_⟩
    have hstab : (sortRows rows).filter (fun y => decide (y.totalPrice = q)) =
        rows.filter (fun y => decide (y.totalPrice = q)) := by
      simpa using (foldl_insertRow_inv q rows [] (by simp)).2
    calc rows.filter (fun y => decide (y.totalPrice = q))
        = (sortRows rows).filter (fun y => decide (y.totalPrice = q)) := hstab.symm
      _ = ((sortRows rows).take (limitCount rawLimit) ++
            (sortRows rows).drop (limitCount rawLimit)).filter
            (fun y => decide (y.totalPrice = q)) := by
          rw [List.take_append_drop]
      _ = _ := by rw [List.filter_append]
  · exact List.length_take_le _ _

/-- C4: the rate limiter is a fixed window.  For a key with no record or an
expired window, a fresh window starts with count 1 and the call is allowed;
and for a client issuing `max+1` calls within one window, the first `max`
calls are allowed and the `(max+1)`th is denied with remaining 0 and a
`resetAt` equal to the `resetAt` returned by every earlier call of the
window (in particular by the `max`th call). -/
theorem rateLimit_fixed_window
    (maxReq windowMs t₀ tl : ℕ) (ts : List ℕ) (r₀ : RateRecord)
    (hm : 1 ≤ maxReq) (hts : ts.length = maxReq - 1)
    (hin : ∀ t ∈ ts, t < t₀ + windowMs) (htl : tl < t₀ + windowMs)
    (hexp : t₀ ≥ r₀.resetAt) :
    rateLimit none t₀ maxReq windowMs =
      (⟨true, (maxReq : ℤ) - 1, t₀ + windowMs⟩, ⟨1, t₀ + windowMs⟩) ∧
    rateLimit (some r₀) t₀ maxReq windowMs =
      (⟨true, (maxReq : ℤ) - 1, t₀ + windowMs⟩, ⟨1, t₀ + windowMs⟩) ∧
    (rlRun none maxReq windowMs (t₀ :: ts ++ [tl])).1.length = maxReq + 1 ∧
    (∀ r ∈ (rlRun none maxReq windowMs (t₀ :: ts ++ [tl])).1.dropLast,
        r.allowed = true ∧ r.resetAt = t₀ + windowMs) ∧
    (rlRun none maxReq windowMs (t₀ :: ts ++ [tl])).1.getLast? =
      some ⟨false, 0, t₀ + windowMs⟩ := by
  have hfresh : rateLimit none t₀ maxReq windowMs =
      (⟨true, (maxReq : ℤ) - 1, t₀ + windowMs⟩, ⟨1, t₀ + windowMs⟩) := rfl
  have hfresh' : rateLimit (some r₀) t₀ maxReq windowMs =
      (⟨true, (maxReq : ℤ) - 1, t₀ + windowMs⟩, ⟨1, t₀ + windowMs⟩) := by
    simp [rateLimit, hexp]
  have hmid := rlRun_under_max maxReq windowMs (t₀ + windowMs) ts 1
    (le_refl 1) (by omega) hin
  have hcount : (1 + ts.length : ℕ) = maxReq := by omega
  rw [hcount] at hmid
  have hdeny : rlRun (some ⟨maxReq, t₀ + windowMs⟩) maxReq windowMs [tl] =
      ([⟨false, 0, t₀ + windowMs⟩], some ⟨maxReq, t₀ + windowMs⟩) := by
    simp [rlRun, rateLimit, Nat.not_le.mpr htl]
  have hsplit := rlRun_append maxReq windowMs ts [tl] (some ⟨1, t₀ + windowMs⟩)
  rw [hmid.2.1, hdeny] at hsplit
  have hrun : rlRun none maxReq windowMs (t₀ :: ts ++ [tl]) =
      (⟨true, (maxReq : ℤ) - 1, t₀ + windowMs⟩ ::
        ((rlRun (some ⟨1, t₀ + windowMs⟩) maxReq windowMs ts).1 ++
          [⟨false, 0, t₀ + windowMs⟩]),
       some ⟨maxReq, t₀ + windowMs⟩) := by
    show (let p := rateLimit none t₀ maxReq windowMs
          let q := rlRun (some p.2) maxReq windowMs (ts ++ [tl])
          (p.1 :: q.1, q.2)) = _
    rw [hfresh]
    simp only []
    rw [hsplit]
  refine ⟨hfresh, hfresh', ?_, ?_, ?_⟩
  · rw [hrun]
    simp [hmid.2.2, hts]
    omega
  · intro r hr
    rw [hrun] at hr
    have : (⟨true, (maxReq : ℤ) - 1, t₀ + windowMs⟩ ::
        ((rlRun (some ⟨1, t₀ + windowMs⟩) maxReq windowMs ts).1 ++
          [(⟨false, 0, t₀ + windowMs⟩ : RLResult)])) =
        ((⟨true, (maxReq : ℤ) - 1, t₀ + windowMs⟩ ::
          (rlRun (some ⟨1, t₀ + windowMs⟩) maxReq windowMs ts).1) ++
          [(⟨false, 0, t₀ + windowMs⟩ : RLResult)]) := by
      simp
    rw [this, List.dropLast_concat] at hr
    rcases List.mem_cons.mp hr with h | h
    · subst h; exact ⟨rfl, rfl⟩
    · exact hmid.1 r h
  · rw [hrun]
    have : (⟨true, (maxReq : ℤ) - 1, t₀ + windowMs⟩ ::
        ((rlRun (some ⟨1, t₀ + windowMs⟩) maxReq windowMs ts).1 ++
          [(⟨false, 0, t₀ + windowMs⟩ : RLResult)])) =
        ((⟨true, (maxReq : ℤ) - 1, t₀ + windowMs⟩ ::
          (rlRun (some ⟨1, t₀ + windowMs⟩) maxReq windowMs ts).1) ++
          [(⟨false, 0, t₀ + windowMs⟩ : RLResult)]) := by
      simp
    rw [this, List.getLast?_concat]

theorem aset_of_missing {α : Type} (m : List (String × α)) (k : String) (v : α)
    (h : alookup m k = none) : aset m k v = m ++ [(k, v)] := by
  induction m with
  | nil => simp [aset]
  | cons p rest ih =>
      obtain ⟨a, b⟩ := p
      by_cases hk : a = k
      · simp [alookup, hk] at h
      · simp only [alookup, if_neg hk] at h
        simp [aset, hk, ih h]

theorem alookup_none_iff {α : Type} (m : List (String × α)) (k : String) :
    alookup m k = none ↔ k ∉ m.map Prod.fst := by
  induction m with
  | nil => simp [alookup]
  | cons p rest ih =>
      obtain ⟨a, b⟩ := p
      by_cases hk : a = k
      · simp [alookup, hk]
      · rw [alookup, if_neg hk, ih]
        have hka : ¬ k = a := fun h => hk h.symm
        simp [hka]

theorem keys_aset_present {α : Type} (m : List (String × α)) (k : String)
    (v w : α) (h : alookup m k = some w) :
    (aset m k v).map Prod.fst = m.map Prod.fst := by
  induction m with
  | nil => simp [alookup] at h
  | cons p rest ih =>
      obtain ⟨a, b⟩ := p
      by_cases hk : a = k
      · simp [aset, hk]
      · simp only [alookup, if_neg hk] at h
        simp [aset, hk, ih h]

theorem mem_aset {α : Type} (m : List (String × α)) (k : String) (v : α)
    (p : String × α) (hp : p ∈ aset m k v) : p = (k, v) ∨ p ∈ m := by
  induction m with
  | nil => simpa [aset] using hp
  | cons q rest ih =>
      obtain ⟨a, b⟩ := q
      by_cases hk : a = k
      · rw [aset, if_pos hk] at hp
        rcases List.mem_cons.mp hp with h | h
        · exact Or.inl h
        · exact Or.inr (List.mem_cons_of_mem _ h)
      · rw [aset, if_neg hk] at hp
        rcases List.mem_cons.mp hp with h | h
        · exact Or.inr (h ▸ List.mem_cons_self _ _)
        · rcases ih h with h' | h'
          · exact Or.inl h'
          · exact Or.inr (List.mem_cons_of_mem _ h')

theorem dedupeStep_lookup (key : PriceRow → String)
    (m : List (String × PriceRow)) (r : PriceRow) (k : String) :
    alookup (dedupeStep key m r) k =
      if key r = k then some (optPick (alookup m k) r) else alookup m k := by
  by_cases hk : key r = k
  · subst hk
    rw [if_pos rfl]
    cases h : alookup m (key r) with
    | none => simp [dedupeStep, h, optPick, alookup_aset_self]
    | some prev =>
        by_cases hlt : r.totalPrice < prev.totalPrice
        · simp [dedupeStep, h, hlt, optPick, pick, alookup_aset_self]
        · simp [dedupeStep, h, hlt, optPick, pick]
  · rw [if_neg hk]
    have hne : k ≠ key r := fun h => hk h.symm
    cases h : alookup m (key r) with
    | none => simp [dedupeStep, h, alookup_aset_other _ _ _ _ hne]
    | some prev =>
        by_cases hlt : r.totalPrice < prev.totalPrice
        · simp [dedupeStep, h, hlt, alookup_aset_other _ _ _ _ hne]
        · simp [dedupeStep, h, hlt]

theorem dedupeFold_lookup (key : PriceRow → String) (k : String) :
    ∀ (rows : List PriceRow) (m : List (String × PriceRow)),
      alookup (rows.foldl (dedupeStep key) m) k =
        optFold (alookup m k) (rows.filter (fun r => decide (key r = k))) := by
  intro rows
  induction rows with
  | nil => intro m; simp [optFold]
  | cons r rows ih =>
      intro m
      simp only [List.foldl_cons, List.filter_cons]
      rw [ih]
      by_cases hk : key r = k
      · rw [dedupeStep_lookup key m r k, if_pos hk]
        simp [hk, optFold]
      · rw [dedupeStep_lookup key m r k, if_neg hk]
        simp [hk]

theorem optFold_some :
    ∀ (g : List PriceRow) (b : PriceRow), optFold (some b) g = some (pickFold b g) := by
  intro g
  induction g with
  | nil => intro b; simp [optFold, pickFold]
  | cons r rest ih =>
      intro b
      show optFold (some (pick b r)) rest = some (pickFold b (r :: rest))
      exact ih (pick b r)

theorem pick_le_left (b r : PriceRow) : (pick b r).totalPrice ≤ b.totalPrice := by
  by_cases h : r.totalPrice < b.totalPrice
  · rw [pick, if_pos h]; exact le_of_lt h
  · rw [pick, if_neg h]

theorem pick_le_right (b r : PriceRow) : (pick b r).totalPrice ≤ r.totalPrice := by
  by_cases h : r.totalPrice < b.totalPrice
  · rw [pick, if_pos h]
  · rw [pick, if_neg h]; exact le_of_not_lt h

theorem pickFold_le :
    ∀ (g : List PriceRow) (b x : PriceRow), x ∈ b :: g →
      (pickFold b g).totalPrice ≤ x.totalPrice := by
  intro g
  induction g with
  | nil =>
      intro b x hx
      rcases List.mem_cons.mp hx with h | h
      · subst h; exact le_refl _
      · simp at h
  | cons r rest ih =>
      intro b x hx
      have hfold : pickFold b (r :: rest) = pickFold (pick b r) rest := rfl
      rw [hfold]
      have hseed : (pickFold (pick b r) rest).totalPrice ≤ (pick b r).totalPrice :=
        ih (pick b r) (pick b r) (List.mem_cons_self _ _)
      rcases List.mem_cons.mp hx with h | h
      · rw [h]
        exact le_trans hseed (pick_le_left b r)
      · rcases List.mem_cons.mp h with h' | h'
        · rw [h']
          exact le_trans hseed (pick_le_right b r)
        · exact ih (pick b r) x (List.mem_cons_of_mem _ h')

theorem pickFold_find :
    ∀ (g : List PriceRow) (b : PriceRow),
      (b :: g).find? (fun x => decide (x.totalPrice ≤ (pickFold b g).totalPrice)) =
        some (pickFold b g) := by
  intro g
  induction g with
  | nil =>
      intro b
      have hb : pickFold b ([] : List PriceRow) = b := rfl
      rw [hb]
      exact List.find?_cons_of_pos _ (by simp)
  | cons r rest ih =>
      intro b
      have hfold : pickFold b (r :: rest) = pickFold (pick b r) rest := rfl
      rw [hfold]
      by_cases hlt : r.totalPrice < b.totalPrice
      · have hpick : pick b r = r := by rw [pick, if_pos hlt]
        rw [hpick]
        have hv : (pickFold r rest).totalPrice < b.totalPrice :=
          lt_of_le_of_lt (pickFold_le rest r r (List.mem_cons_self _ _)) hlt
        rw [List.find?_cons_of_neg _ (by simp only [decide_eq_true_eq, not_le]; exact hv)]
        exact ih r
      · have hpick : pick b r = b := by rw [pick, if_neg hlt]
        rw [hpick]
        have hbr : b.totalPrice ≤ r.totalPrice := le_of_not_lt hlt
        have hih := ih b
        by_cases hb : b.totalPrice ≤ (pickFold b rest).totalPrice
        · rw [List.find?_cons_of_pos _ (by simpa using hb)] at hih ⊢
          exact hih
        · rw [List.find?_cons_of_neg _ (by simpa using hb)] at hih
          rw [List.find?_cons_of_neg _ (by simpa using hb)]
          have hr : ¬ r.totalPrice ≤ (pickFold b rest).totalPrice := by
            intro hcon
            exact hb (le_trans hbr hcon)
          rw [List.find?_cons_of_neg _ (by simpa using hr)]
          exact hih

theorem dedupeFold_inv (key : PriceRow → String) :
    ∀ (rows : List PriceRow) (m : List (String × PriceRow)),
      (∀ p ∈ m, key p.2 = p.1) →
      ∀ p ∈ rows.foldl (dedupeStep key) m, key p.2 = p.1 := by
  intro rows
  induction rows with
  | nil => intro m hm; simpa using hm
  | cons r rows ih =>
      intro m hm
      simp only [List.foldl_cons]
      apply ih
      intro p hp
      have hstep : ∀ (q : String × PriceRow),
          q ∈ aset m (key r) r → key q.2 = q.1 := by
        intro q hq
        rcases mem_aset m (key r) r q hq with h | h
        · rw [h]
        · exact hm q h
      cases h : alookup m (key r) with
      | none =>
          simp only [dedupeStep, h] at hp
          exact hstep p hp
      | some prev =>
          simp only [dedupeStep, h] at hp
          by_cases hlt : r.totalPrice < prev.totalPrice
          · rw [if_pos hlt] at hp; exact hstep p hp
          · rw [if_neg hlt] at hp; exact hm p hp

theorem dedupeFold_nodup (key : PriceRow → String) :
    ∀ (rows : List PriceRow) (m : List (String × PriceRow)),
      (m.map Prod.fst).Nodup →
      ((rows.foldl (dedupeStep key) m).map Prod.fst).Nodup := by
  intro rows
  induction rows with
  | nil => intro m hm; simpa using hm
  | cons r rows ih =>
      intro m hm
      simp only [List.foldl_cons]
      apply ih
      cases h : alookup m (key r) with
      | none =>
          simp only [dedupeStep, h]
          rw [aset_of_missing m (key r) r h]
          have hnot : key r ∉ m.map Prod.fst := (alookup_none_iff m (key r)).mp h
          simp [List.nodup_append, hm, hnot]
      | some prev =>
          simp only [dedupeStep, h]
          by_cases hlt : r.totalPrice < prev.totalPrice
          · rw [if_pos hlt, keys_aset_present m (key r) r prev h]
            exact hm
          · rw [if_neg hlt]
            exact hm

theorem mapsnd_filter_eq (key : PriceRow → String) (k : String) :
    ∀ (m : List (String × PriceRow)),
      (∀ p ∈ m, key p.2 = p.1) → (m.map Prod.fst).Nodup →
      (m.map Prod.snd).filter (fun r => decide (key r = k)) =
        (alookup m k).toList := by
  intro m
  induction m with
  | nil => intro _ _; simp [alookup]
  | cons p rest ih =>
      intro hinv hnd
      obtain ⟨a, v⟩ := p
      have hkv : key v = a := hinv (a, v) (List.mem_cons_self _ _)
      have hinv' : ∀ q ∈ rest, key q.2 = q.1 :=
        fun q hq => hinv q (List.mem_cons_of_mem _ hq)
      have hnd' : (rest.map Prod.fst).Nodup := (List.nodup_cons.mp hnd).2
      have hnotin : a ∉ rest.map Prod.fst := (List.nodup_cons.mp hnd).1
      by_cases hk : a = k
      · subst hk
        have hrest : (rest.map Prod.snd).filter (fun r => decide (key r = a)) = [] := by
          rw [List.filter_eq_nil_iff]
          intro y hy
          rcases List.mem_map.mp hy with ⟨q, hq, rfl⟩
          simp only [decide_eq_true_eq]
          intro he
          apply hnotin
          have hqa : q.1 = a := by rw [← hinv' q hq]; exact he
          exact List.mem_map.mpr ⟨q, hq, hqa⟩
        simp [alookup, List.filter_cons, hkv, hrest]
      · have hne : ¬ key v = k := by rw [hkv]; exact hk
        simp [alookup, List.filter_cons, hne, hk, ih hinv' hnd']

theorem find?_eq_filter_head (p : PriceRow → Bool) :
    ∀ (l : List PriceRow), l.find? p = (l.filter p).head? := by
  intro l
  induction l with
  | nil => simp
  | cons x xs ih =>
      by_cases h : p x
      · rw [List.find?_cons_of_pos _ h, List.filter_cons, if_pos h]
        simp
      · rw [List.find?_cons_of_neg _ h, List.filter_cons, if_neg h]
        exact ih

/-- For a non-empty dedupe group the surviving rows of that group key form
exactly the singleton of the group fold value. -/
theorem dedupe_survivors (key : PriceRow → String) (rows : List PriceRow)
    (k : String) (b : PriceRow) (g : List PriceRow)
    (hg : rows.filter (fun r => decide (key r = k)) = b :: g) :
    (dedupeRows key rows).filter (fun r => decide (key r = k)) =
      [pickFold b g] := by
  have hinv := dedupeFold_inv key rows [] (by simp)
  have hnd := dedupeFold_nodup key rows [] (by simp)
  have heq := mapsnd_filter_eq key k (rows.foldl (dedupeStep key) []) hinv hnd
  have hlk : alookup (rows.foldl (dedupeStep key) []) k = some (pickFold b g) := by
    rw [dedupeFold_lookup key k rows []]
    rw [hg]
    show optFold (some (optPick none b)) g = _
    exact optFold_some g b
  show ((rows.foldl (dedupeStep key) []).map Prod.snd).filter _ = _
  rw [heq, hlk]
  rfl

/-- C3 (amended): when dedupe=chain, for every dedupe group key present in
the pre-dedupe row set (`chain || pharmacy || "unknown"` with JS falsiness),
exactly one row of that group survives, it comes from the pre-dedupe set,
and its `totalPrice` is the minimum `totalPrice` of the group; rows lacking
both chain and pharmacy are grouped under the key `"unknown"`.  (The literal
per-chain reading fails when a chainless row shares the group key of a
chain value; see the counterexample.) -/
theorem dedupe_chain_spec (rows : List PriceRow) (k : String) (b : PriceRow)
    (g : List PriceRow)
    (hg : rows.filter (fun r => decide (chainKey r = k)) = b :: g) :
    (dedupeRows chainKey rows).filter (fun r => decide (chainKey r = k)) =
      [pickFold b g] ∧
    pickFold b g ∈ rows ∧ chainKey (pickFold b g) = k ∧
    (∀ x ∈ rows, chainKey x = k → (pickFold b g).totalPrice ≤ x.totalPrice) ∧
    (∀ r : PriceRow, strTruthy r.chain = false → strTruthy r.pharmacy = false →
      chainKey r = "unknown") := by
  have hmem : pickFold b g ∈ b :: g :=
    List.mem_of_find?_eq_some (pickFold_find g b)
  have hmemf : pickFold b g ∈ rows.filter (fun r => decide (chainKey r = k)) := by
    rw [hg]; exact hmem
  refine ⟨dedupe_survivors chainKey rows k b g hg, ?_, ?_, ?_, ?_⟩
  · exact List.mem_of_mem_filter hmemf
  · have := List.of_mem_filter hmemf
    simpa using this
  · intro x hx hkx
    have hxf : x ∈ rows.filter (fun r => decide (chainKey r = k)) :=
      List.mem_filter.mpr ⟨hx, by simp [hkx]⟩
    rw [hg] at hxf
    exact pickFold_le g b x hxf
  · intro r h1 h2
    simp [chainKey, h1, h2]

/-- Witness for `dedupe_chain_spec`: two chain-`"cvs"` rows dedupe to the
single cheaper one. -/
theorem dedupe_chain_spec_witness :
    (dedupeRows chainKey [wChainRow1, wChainRow2]).filter
        (fun r => decide (chainKey r = "cvs")) =
      [pickFold wChainRow1 [wChainRow2]] :=
  (dedupe_chain_spec [wChainRow1, wChainRow2] "cvs" wChainRow1 [wChainRow2]
    (by decide)).1

/-- C3 counterexample to the literal claim: the chain value `"unknown"` is
present in the pre-dedupe row set, yet after chain-dedupe no surviving row
carries that chain — a chainless, pharmacyless row shares the group key
`"unknown"` and is cheaper, so it evicts the row of that chain. -/
theorem dedupe_chain_counterexample :
    cexChainRow.chain = some "unknown" ∧
    cexChainRow ∈ [cexChainRow, cexNadacRow] ∧
    ((dedupeRows chainKey [cexChainRow, cexNadacRow]).filter
        (fun r => decide (r.chain = some "unknown"))).length = 0 := by
  refine ⟨rfl, by simp, by decide⟩

/-- C10: in dedupe mode the row kept for a group key is the earliest
pre-dedupe row attaining the group minimum: the comparison is strict, so a
later row evicts the kept one only when strictly cheaper.  The second
conjunct states that scanning the group in input order, the first row whose
`totalPrice` is less than or equal to the kept row's (by the third conjunct,
exactly the rows attaining the group minimum) is the kept row itself. -/
theorem dedupe_keeps_earliest (key : PriceRow → String) (rows : List PriceRow)
    (k : String) (b : PriceRow) (g : List PriceRow)
    (hg : rows.filter (fun r => decide (key r = k)) = b :: g) :
    (dedupeRows key rows).find? (fun r => decide (key r = k)) =
      some (pickFold b g) ∧
    (rows.filter (fun r => decide (key r = k))).find?
        (fun r => decide (r.totalPrice ≤ (pickFold b g).totalPrice)) =
      some (pickFold b g) ∧
    (∀ x ∈ rows, key x = k → (pickFold b g).totalPrice ≤ x.totalPrice) := by
  refine ⟨?_, ?_, ?_⟩
  · rw [find?_eq_filter_head, dedupe_survivors key rows k b g hg]
    rfl
  · rw [hg]
    exact pickFold_find g b
  · intro x hx hkx
    have hxf : x ∈ rows.filter (fun r => decide (key r = k)) :=
      List.mem_filter.mpr ⟨hx, by simp [hkx]⟩
    rw [hg] at hxf
    exact pickFold_le g b x hxf

/-- Witness for `dedupe_keeps_earliest`: two rows of the same pharmacy and
equal price — the earlier one survives pharmacy-dedupe. -/
theorem dedupe_keeps_earliest_witness :
    (dedupeRows pharmacyKey [wTieRow1, wTieRow2]).find?
        (fun r => decide (pharmacyKey r = "Walgreens")) =
      some (pickFold wTieRow1 [wTieRow2]) :=
  (dedupe_keeps_earliest pharmacyKey [wTieRow1, wTieRow2] "Walgreens"
    wTieRow1 [wTieRow2] (by decide)).1

/-- C6: requests with a missing or empty drug are rejected as input errors
with a human-readable message before the rate limiter or any provider runs
(the rate-limit entry is returned untouched); a non-empty zip that is not
exactly five digits is likewise rejected; and a rate-limit-exhausted client
receives the distinct throttled outcome carrying remaining 0 and the stored
reset time, with providers never reached (provider work follows only a
`proceed` outcome). -/
theorem handler_gate_spec (drugParam zipParam : Option String)
    (rl : Option RateRecord) (now maxReq windowMs : ℕ) :
    (strTrim (drugParam.getD "") = "" →
      handlerGate drugParam zipParam rl now maxReq windowMs =
        (.badDrug "Missing required query param: drug (e.g., ?drug=atorvastatin)",
         rl)) ∧
    (strTrim (drugParam.getD "") ≠ "" → strTrim (zipParam.getD "") ≠ "" →
      isFiveDigitZip (strTrim (zipParam.getD "")) = false →
      handlerGate drugParam zipParam rl now maxReq windowMs =
        (.badZip "Invalid zip. Use 5 digits, e.g., 85001", rl)) ∧
    (∀ r : RateRecord, rl = some r → now < r.resetAt → maxReq ≤ r.count →
      strTrim (drugParam.getD "") ≠ "" →
      (strTrim (zipParam.getD "") = "" ∨
        isFiveDigitZip (strTrim (zipParam.getD "")) = true) →
      handlerGate drugParam zipParam rl now maxReq windowMs =
        (.limited 0 r.resetAt, some r)) := by
  refine ⟨?_, ?_, ?_⟩
  · intro h
    simp [handlerGate, h]
  · intro h1 h2 h3
    simp [handlerGate, h1, h2, h3]
  · intro r hrl hlt hcount h1 h2
    have hdeny : rateLimit rl now maxReq windowMs = (⟨false, 0, r.resetAt⟩, r) := by
      rw [hrl]
      simp [rateLimit, Nat.not_le.mpr hlt, hcount]
    rcases h2 with h2 | h2
    · simp [handlerGate, h1, h2, hdeny]
    · simp [handlerGate, h1, h2, hdeny]

/-- Witness for `handler_gate_spec`: a request without a drug parameter is
rejected with the message of route.ts:398 and an untouched rate-limit map. -/
theorem handler_gate_spec_witness :
    handlerGate none (some "85001") none 0 30 60000 =
      (.badDrug "Missing required query param: drug (e.g., ?drug=atorvastatin)",
       none) :=
  (handler_gate_spec none (some "85001") none 0 30 60000).1 (by decide)

/-- C8: with no API credential configured (falsy key) the GoodRx provider
immediately returns an empty row set as a normal value, never an error —
even when the network oracle would have thrown — so the aggregation section
completes normally and the response stays a success; and when the
provider-specific throttle denies the call, the aggregator records the
throttle caveat and skips the provider call (rows, attempts and call count
untouched) instead of failing the request. -/
theorem goodrx_degrades_gracefully (st : AggState) (apiKey : Option String)
    (input : GoodRxInput) (upstream : Except Unit (Option (List GoodRxItem)))
    (now goodrxMax windowMs : ℕ) (hkey : strTruthy apiKey = false) :
    fetchGoodRxPrices apiKey input upstream = .ok ([], goodRxBase) ∧
    ((rateLimit st.rlGoodRx now goodrxMax windowMs).1.allowed = true →
      goodrxSection st true apiKey input upstream now goodrxMax windowMs =
        { st with rlGoodRx := some (rateLimit st.rlGoodRx now goodrxMax windowMs).2,
                  attempted := st.attempted ++ ["GoodRx"],
                  goodrxCalls := st.goodrxCalls + 1 }) ∧
    ((rateLimit st.rlGoodRx now goodrxMax windowMs).1.allowed = false →
      goodrxSection st true apiKey input upstream now goodrxMax windowMs =
        { st with rlGoodRx := some (rateLimit st.rlGoodRx now goodrxMax windowMs).2,
                  caveats := st.caveats ++ [goodrxThrottleCaveat] }) := by
  have hfetch : fetchGoodRxPrices apiKey input upstream = .ok ([], goodRxBase) := by
    simp [fetchGoodRxPrices, hkey]
  refine ⟨hfetch, ?_, ?_⟩
  · intro hallow
    simp [goodrxSection, hallow, hfetch]
  · intro hdeny
    simp [goodrxSection, hdeny]

/-- Witness for `goodrx_degrades_gracefully`: with no key, even a throwing
upstream yields the empty-rows success value. -/
theorem goodrx_degrades_gracefully_witness :
    fetchGoodRxPrices none ⟨"atorvastatin", 30, none, 25⟩ (.error ()) =
      .ok ([], goodRxBase) :=
  (goodrx_degrades_gracefully {} none ⟨"atorvastatin", 30, none, 25⟩ (.error ())
    0 8 60000 rfl).1

/-- C9 counterexample to the literal claim: with resolution Unresolved the
downstream query is not the original free text unchanged — the handler has
already lowercased it (route.ts:429). -/
theorem normalize_counterexample :
    normalizeDrug true "Lipitor" (.ok (resolveRxNorm "Lipitor" none none none none)) ≠
      "Lipitor" ∧
    normalizeDrug true "Lipitor" (.ok (resolveRxNorm "Lipitor" none none none none)) =
      "lipitor" := by
  have h : normalizeDrug true "Lipitor"
      (.ok (resolveRxNorm "Lipitor" none none none none)) = "lipitor" := by decide
  exact ⟨by rw [h]; decide, h⟩

/-- C9 (amended): when name resolution ends Unresolved (both searches yield
no identifiers, hence no rxcui and no canonical name) or throws, the
pipeline continues and downstream providers receive the original free-text
query unchanged apart from the handler's initial lowercasing — the thrown
case is swallowed by the empty catch rather than failing the request. -/
theorem normalize_passthrough (rawDrug : String)
    (find1 find9 : Option (List String)) (nd : Option (List String))
    (nm : Option String)
    (hf1 : find1 = none ∨ find1 = some [])
    (hf9 : find9 = none ∨ find9 = some []) :
    (resolveRxNorm rawDrug find1 find9 nd nm).rxcui = none ∧
    (resolveRxNorm rawDrug find1 find9 nd nm).name = none ∧
    normalizeDrug true rawDrug (.ok (resolveRxNorm rawDrug find1 find9 nd nm)) =
      lowerStr rawDrug ∧
    normalizeDrug true rawDrug (.error ()) = lowerStr rawDrug := by
  have hres : resolveRxNorm rawDrug find1 find9 nd nm =
      { rxcui := none, name := none, ndcs := [],
        resolutionSourceUrl := none, ndcsSourceUrl := none } := by
    rcases hf1 with h1 | h1 <;> rcases hf9 with h9 | h9 <;>
      simp [resolveRxNorm, h1, h9]
  rw [hres]
  exact ⟨rfl, rfl, by simp [normalizeDrug, strTruthy], rfl⟩

/-- Witness for `normalize_passthrough`: an unresolvable query reaches the
providers lowercased and otherwise intact. -/
theorem normalize_passthrough_witness :
    normalizeDrug true "Lipitor 20mg"
        (.ok (resolveRxNorm "Lipitor 20mg" (some []) none none none)) =
      lowerStr "Lipitor 20mg" :=
  (normalize_passthrough "Lipitor 20mg" (some []) none none none
    (Or.inr rfl) (Or.inl rfl)).2.2.1

theorem foldl_min_le (l : List ℚ) :
    ∀ a : ℚ, l.foldl min a ≤ a ∧ ∀ x ∈ l, l.foldl min a ≤ x := by
  induction l with
  | nil => intro a; simp
  | cons b l ih =>
      intro a
      have h := ih (min a b)
      rw [List.foldl_cons]
      refine ⟨le_trans h.1 (min_le_left a b), ?_⟩
      intro x hx
      rcases List.mem_cons.mp hx with h' | h'
      · rw [h']; exact le_trans h.1 (min_le_right a b)
      · exact h.2 x h'

theorem foldl_min_mem (l : List ℚ) :
    ∀ a : ℚ, l.foldl min a = a ∨ l.foldl min a ∈ l := by
  induction l with
  | nil => intro a; simp
  | cons b l ih =>
      intro a
      rw [List.foldl_cons]
      rcases ih (min a b) with h | h
      · rcases min_choice a b with hm | hm
        · left; rw [h, hm]
        · right; rw [h, hm]; exact List.mem_cons_self _ _
      · right; exact List.mem_cons_of_mem _ h

/-- C1: the baseline statistic the handler intends to attach to the
transparency object — this characterizes `nadacUnitMin`, the computation of
route.ts:489-498 rendered with its `nadacRows` binding in scope: null for
an empty benchmark row set, and otherwise the minimum unit price across the
benchmark rows (attained by one of them).  The source as written cannot
execute this: `nadacRows` is scoped to the `try` block of route.ts:477-486,
so route.ts:490 references an undeclared name (see the C1 entry). -/
theorem nadacUnitMin_spec :
    nadacUnitMin [] = none ∧
    ∀ (b : PriceRow) (rest : List PriceRow),
      ∃ m : ℚ, nadacUnitMin (b :: rest) = some m ∧
        (∀ r ∈ b :: rest, m ≤ r.unitPrice) ∧
        ∃ r ∈ b :: rest, r.unitPrice = m := by
  refine ⟨rfl, ?_⟩
  intro b rest
  refine ⟨(rest.map PriceRow.unitPrice).foldl min b.unitPrice, rfl, ?_, ?_⟩
  · intro r hr
    rcases List.mem_cons.mp hr with h | h
    · rw [h]
      exact (foldl_min_le (rest.map PriceRow.unitPrice) b.unitPrice).1
    · exact (foldl_min_le (rest.map PriceRow.unitPrice) b.unitPrice).2
        r.unitPrice (List.mem_map_of_mem _ h)
  · rcases foldl_min_mem (rest.map PriceRow.unitPrice) b.unitPrice with h | h
    · exact ⟨b, List.mem_cons_self _ _, h.symm⟩
    · rcases List.mem_map.mp h with ⟨r, hr, hru⟩
      exact ⟨r, List.mem_cons_of_mem _ hr, hru⟩

/-- Witness for `nadacUnitMin_spec` on a one-row benchmark set. -/
theorem nadacUnitMin_spec_witness :
    ∃ m : ℚ, nadacUnitMin [wTieRow1] = some m ∧
      (∀ r ∈ [wTieRow1], m ≤ r.unitPrice) ∧
      ∃ r ∈ [wTieRow1], r.unitPrice = m :=
  nadacUnitMin_spec.2 wTieRow1 []

theorem isRounded4_round4 (q : ℚ) : isRounded4 (round4 q) :=
  ⟨round (q * 10000), rfl⟩

theorem round4_nonneg (q : ℚ) (h : 0 ≤ q) : 0 ≤ round4 q := by
  unfold round4
  apply div_nonneg _ (by norm_num)
  rw [Int.cast_nonneg, round_eq]
  apply Int.floor_nonneg.mpr
  have : (0 : ℚ) ≤ q * 10000 := by positivity
  linarith

theorem one_le_clampQty (raw : Option ℚ) : 1 ≤ clampQty raw :=
  le_min (le_max_right _ 1) (by norm_num)

theorem mock_base_nonneg : ∀ m ∈ MOCK, 0 ≤ m.row.totalPrice / m.row.qty := by
  intro m hm
  fin_cases hm <;> norm_num

/-- C7 counterexample to the literal row invariant at a concrete NADAC
record: the mapper stores `toNumberSafe(r.nadac_per_unit)` verbatim as
`unitPrice` (route.ts:161,165) — no rounding and no sign clamp — so a
five-decimal, negative benchmark value surfaces as a unit price that is
neither a four-decimal number nor non-negative. -/
theorem nadac_row_counterexample :
    (nadacRow "u" 30 cexNadacRecord).unitPrice = -(0.12345 : ℚ) ∧
    ¬ isRounded4 (nadacRow "u" 30 cexNadacRecord).unitPrice ∧
    (nadacRow "u" 30 cexNadacRecord).unitPrice < 0 := by
  have hu : (nadacRow "u" 30 cexNadacRecord).unitPrice = -(0.12345 : ℚ) := rfl
  refine ⟨hu, ?_, ?_⟩
  · rw [hu]
    rintro ⟨n, hn⟩
    rw [eq_comm, div_eq_iff (by norm_num : (10000 : ℚ) ≠ 0)] at hn
    have h2 : (n : ℚ) * 2 = -2469 := by rw [hn]; norm_num
    have h2' : n * 2 = -2469 := by exact_mod_cast h2
    omega
  · rw [hu]; norm_num

/-- C7 (amended): every exposed row carries `qty` equal to the clamped
requested quantity (providers reporting other pack sizes are rescaled to
it); `totalPrice` is rounded to four decimal places on every provider and
`unitPrice` on the GoodRx, Florida and Mock providers, while NADAC rows
carry the coerced upstream per-unit value verbatim; and prices are
non-negative whenever the coerced upstream values are (automatic for the
Mock fixture). -/
theorem priceRow_invariants (url requestedDrug : String) (qtyParam : Option ℚ)
    (input : GoodRxInput) (nd zipStr : String) :
    (∀ rec : NadacRecord,
      (nadacRow url (clampQty qtyParam) rec).qty = clampQty qtyParam ∧
      (nadacRow url (clampQty qtyParam) rec).unitPrice =
        toNumberSafe rec.nadac_per_unit 0 ∧
      (nadacRow url (clampQty qtyParam) rec).totalPrice =
        round4 (toNumberSafe rec.nadac_per_unit 0 * clampQty qtyParam) ∧
      isRounded4 (nadacRow url (clampQty qtyParam) rec).totalPrice ∧
      (0 ≤ toNumberSafe rec.nadac_per_unit 0 →
        0 ≤ (nadacRow url (clampQty qtyParam) rec).unitPrice ∧
        0 ≤ (nadacRow url (clampQty qtyParam) rec).totalPrice)) ∧
    (∀ p : GoodRxItem,
      (goodRxRow input url p).qty = input.qty ∧
      (goodRxRow input url p).unitPrice = round4 (goodRxUnitRaw p) ∧
      (goodRxRow input url p).totalPrice = round4 (goodRxTotalRaw input p) ∧
      isRounded4 (goodRxRow input url p).unitPrice ∧
      isRounded4 (goodRxRow input url p).totalPrice ∧
      (0 ≤ goodRxUnitRaw p → 0 ≤ (goodRxRow input url p).unitPrice) ∧
      (0 ≤ goodRxTotalRaw input p → 0 ≤ (goodRxRow input url p).totalPrice)) ∧
    (∀ fr : FloridaRecord,
      (floridaRow url requestedDrug (clampQty qtyParam) fr).qty =
        clampQty qtyParam ∧
      (floridaRow url requestedDrug (clampQty qtyParam) fr).unitPrice =
        round4 (floridaUnitRaw fr) ∧
      (floridaRow url requestedDrug (clampQty qtyParam) fr).totalPrice =
        round4 (floridaUnitRaw fr * clampQty qtyParam) ∧
      isRounded4 (floridaRow url requestedDrug (clampQty qtyParam) fr).unitPrice ∧
      isRounded4 (floridaRow url requestedDrug (clampQty qtyParam) fr).totalPrice ∧
      (0 ≤ floridaUnitRaw fr →
        0 ≤ (floridaRow url requestedDrug (clampQty qtyParam) fr).unitPrice ∧
        0 ≤ (floridaRow url requestedDrug (clampQty qtyParam) fr).totalPrice)) ∧
    (∀ prow ∈ mockSection nd zipStr (clampQty qtyParam),
      prow.qty = clampQty qtyParam ∧ isRounded4 prow.unitPrice ∧
      isRounded4 prow.totalPrice ∧ 0 ≤ prow.unitPrice ∧ 0 ≤ prow.totalPrice) := by
  have hq0 : (0 : ℚ) ≤ clampQty qtyParam :=
    le_trans zero_le_one (one_le_clampQty qtyParam)
  refine ⟨?_, ?_, ?_, ?_⟩
  · intro rec
    refine ⟨rfl, rfl, rfl, isRounded4_round4 _, ?_⟩
    intro hnn
    exact ⟨hnn, round4_nonneg _ (mul_nonneg hnn hq0)⟩
  · intro p
    exact ⟨rfl, rfl, rfl, isRounded4_round4 _, isRounded4_round4 _,
      fun h => round4_nonneg _ h, fun h => round4_nonneg _ h⟩
  · intro fr
    refine ⟨rfl, rfl, rfl, isRounded4_round4 _, isRounded4_round4 _, ?_⟩
    intro hnn
    exact ⟨round4_nonneg _ hnn, round4_nonneg _ (mul_nonneg hnn hq0)⟩
  · intro prow hp
    rcases List.mem_map.mp hp with ⟨m, hm, rfl⟩
    have hmock : m ∈ MOCK := List.mem_of_mem_filter (List.mem_of_mem_filter hm)
    have hbase := mock_base_nonneg m hmock
    exact ⟨rfl, isRounded4_round4 _, isRounded4_round4 _,
      round4_nonneg _ hbase, round4_nonneg _ (mul_nonneg hbase hq0)⟩

/-- Witness for `priceRow_invariants` at a concrete NADAC record. -/
theorem priceRow_invariants_witness :
    isRounded4 (nadacRow "u" (clampQty (some 30))
      { nadac_per_unit := some 1 }).totalPrice :=
  ((priceRow_invariants "u" "d" (some 30) ⟨"d", 30, none, 10⟩ "x" "").1
    { nadac_per_unit := some 1 }).2.2.2.1

/-- Witness for `rateLimit_fixed_window` at max 2, window 10 and call times
0, 3, 5: the third call is denied with remaining 0 and resetAt 10. -/
theorem rateLimit_fixed_window_witness :
    (rlRun none 2 10 ([0] ++ [3] ++ [5])).1.getLast? = some ⟨false, 0, 10⟩ := by
  have h := (rateLimit_fixed_window 2 10 0 5 [3] ⟨0, 0⟩ (by decide) (by decide)
    (by decide) (by decide) (by decide)).2.2.2.2
  simpa using h

end MediFindr
